import Mathlib

/-!
Verification of the LogSumExp fixer (`fix_logsumexp.py`) and of
`SingleSiteInference.get_proposers` (`single_site_inference.py`) from the
beanmachine compiler, via a shallow embedding.

Graphs are modelled as heaps: an association list from node ids (`Nat`) to
node data.  A node's data is its kind tag, its ordered list of input node
ids, and a numeric payload (used only by constant nodes; never inspected by
the fixer).  Node objects in Python are shared by reference; here sharing is
sharing of ids.
-/

namespace BeanMachine

/-- The node kinds relevant to the LogSumExp fixer.  `Add` is the binary
addition node kind (`AdditionNode`), distinct from the n-ary
`MultiAdd` (`MultiAdditionNode`). -/
inductive NodeKind where
  | Log
  | Exp
  | MultiAdd
  | Add
  | LogSumExp
  | Constant
  | Other
deriving DecidableEq, Repr

/-- Data stored at a node: kind tag, ordered input ids, numeric payload
(only meaningful for `Constant` nodes; structurally irrelevant). -/
structure NodeData where
  kind : NodeKind
  inputs : List Nat
  value : Int := 0
deriving DecidableEq, Repr

/-- The graph: an association list from node id to node data (the heap of
node objects). -/
structure Graph where
  nodes : List (Nat × NodeData)
deriving DecidableEq, Repr

/-- Dereference a node id. -/
def Graph.find? (g : Graph) (i : Nat) : Option NodeData :=
  g.nodes.lookup i

/-- The lattice typer (`LatticeTyper`): an abstract oracle classifying node
ids.  The LogSumExp fixer stores one but never queries it, which we verify. -/
structure LatticeTyper where
  typeOf : Nat → Nat

/-- `isinstance(node_at(i), bn.ExpNode)` for an input reference `i`. -/
def isExpKind (g : Graph) (i : Nat) : Bool :=
  match g.find? i with
  | some d => d.kind == NodeKind.Exp
  | none => false

/-- `LogSumExpFixer._is_exp_input`:
`all(isinstance(i, bn.ExpNode) for i in n.inputs)`. -/
def is_exp_input (g : Graph) (n : NodeData) : Bool :=
  n.inputs.all (isExpKind g)

/-- `n.operand` of a unary operator node: its single (first) input. -/
def NodeData.operand? (n : NodeData) : Option Nat :=
  n.inputs.head?

/-- `LogSumExpFixer.can_be_log_sum_exp`:
`o = n.operand; isinstance(o, bn.MultiAdditionNode) and self._is_exp_input(o)`. -/
def can_be_log_sum_exp (g : Graph) (n : NodeData) : Bool :=
  match n.operand? with
  | none => false
  | some oId =>
    match g.find? oId with
    | none => false
    | some o => o.kind == NodeKind.MultiAdd && is_exp_input g o

/-- `LogSumExpFixer._needs_fixing`:
`isinstance(n, bn.LogNode) and self.can_be_log_sum_exp(n)`.
The typer `t` is the fixer's `self._typer`; the method body never reads it. -/
def needs_fixing (g : Graph) (t : LatticeTyper) (n : NodeData) : Bool :=
  n.kind == NodeKind.Log && can_be_log_sum_exp g n

/-- A fresh node id: one more than the largest id in the graph. -/
def freshId (g : Graph) : Nat :=
  (g.nodes.map Prod.fst).foldr max 0 + 1

/-- Modelled from the spec: `BMGraphBuilder.add_logsumexp` is not in the
repository excerpt.  Per the spec's Graph Builder interface,
`add_node(kind, inputs...) -> NodeRef` constructs a new node of the given
kind over the given (already existing) input references and returns its
reference.  Here: allocate a fresh id bound to a `LogSumExp` node whose
input list is exactly `acc`. -/
def add_logsumexp (g : Graph) (acc : List Nat) : Graph × Nat :=
  let i := freshId g
  (⟨(i, { kind := NodeKind.LogSumExp, inputs := acc }) :: g.nodes⟩, i)

/-- `c.operand` after `assert isinstance(c, bn.ExpNode)`: returns the
operand id when the referenced node is an `Exp` node, `none` when the
assertion would fail. -/
def expOperand? (g : Graph) (i : Nat) : Option Nat :=
  match g.find? i with
  | some d => if d.kind == NodeKind.Exp then d.operand? else none
  | none => none

/-- The accumulation loop of `_get_replacement`:
`for c in n.operand.inputs: assert isinstance(c, bn.ExpNode); acc.append(c.operand)`.
Returns `none` when the assertion fails on some child. -/
def extractOperands (g : Graph) : List Nat → Option (List Nat)
  | [] => some []
  | c :: rest =>
    match expOperand? g c with
    | none => none
    | some a =>
      match extractOperands g rest with
      | none => none
      | some acc => some (a :: acc)

/-- `LogSumExpFixer._get_replacement`.  A failing `assert` (or a dangling
dereference) is modelled as `none`; on success returns the extended graph
and the reference to the new `LogSumExp` node built by `add_logsumexp`. -/
def get_replacement (g : Graph) (t : LatticeTyper) (n : NodeData) :
    Option (Graph × Nat) :=
  if n.kind != NodeKind.Log then none
  else if !can_be_log_sum_exp g n then none
  else
    match n.operand? with
    | none => none
    | some oId =>
      match g.find? oId with
      | none => none
      | some o =>
        match extractOperands g o.inputs with
        | none => none
        | some acc => some (add_logsumexp g acc)

/-- Class invariant of `bn.ExpNode` (a `UnaryOperatorNode`): every `Exp`
node in the heap has an operand (it is constructed with exactly one input). -/
def ExpWF (g : Graph) : Prop :=
  ∀ i d, g.find? i = some d → d.kind = NodeKind.Exp → (d.operand?).isSome

/-- Decidable check implying `ExpWF`, for concrete graphs. -/
def expWFb (g : Graph) : Bool :=
  g.nodes.all (fun p => p.2.kind != NodeKind.Exp || (p.2.operand?).isSome)

/-- The structural content of a node: its kind and its ordered input ids —
everything except the numeric payload. -/
def NodeData.skeleton (d : NodeData) : NodeKind × List Nat :=
  (d.kind, d.inputs)

/-- The structural content of a graph: ids with node skeletons, in heap
order.  Two graphs with equal skeletons are "identical in node kinds and
input-order structure" and may differ in constant values. -/
def Graph.skeleton (g : Graph) : List (Nat × (NodeKind × List Nat)) :=
  g.nodes.map (fun p => (p.1, p.2.skeleton))

end BeanMachine

namespace BeanMachine

/-- `SingleSiteInference` state: the memo table `self._proposers` mapping a
random-variable id to the proposer instance built for it, plus an allocator
counter modelling fresh object identity of `self.proposer_class(node, ...)`
calls (each construction yields a distinct instance id). -/
structure SingleSiteInference where
  proposers : List (Nat × Nat)
  next : Nat
deriving DecidableEq, Repr

/-- `SingleSiteInference.get_proposers`: for each node of `target_rvs` in
iteration order, construct a proposer if the node is not yet memoized, then
append the memoized proposer; returns the updated state and the list. -/
def get_proposers (s : SingleSiteInference) (target_rvs : List Nat) :
    SingleSiteInference × List Nat :=
  match target_rvs with
  | [] => (s, [])
  | node :: rest =>
    let step : SingleSiteInference × Nat :=
      match s.proposers.lookup node with
      | some p => (s, p)
      | none => (⟨(node, s.next) :: s.proposers, s.next + 1⟩, s.next)
    let r := get_proposers step.1 rest
    (r.1, step.2 :: r.2)

/-! Concrete fixtures used by witnesses. -/

/-- A trivial typer. -/
def typer0 : LatticeTyper := ⟨fun _ => 0⟩

/-- A second, different typer (used to show typer-independence). -/
def typer1 : LatticeTyper := ⟨fun i => i + 1⟩

/-- `log(exp(a) + exp(b) + exp(c))` with `a, b, c` the leaves `1, 2, 3`:
node 4 is `Exp(1)`, 5 is `Exp(2)`, 6 is `Exp(3)`, 7 is the `MultiAdd` over
`[4, 5, 6]`, 8 is the `Log` of 7. -/
def gSum : Graph := ⟨[
  (1, ⟨NodeKind.Other, [], 0⟩), (2, ⟨NodeKind.Other, [], 0⟩),
  (3, ⟨NodeKind.Other, [], 0⟩),
  (4, ⟨NodeKind.Exp, [1], 0⟩), (5, ⟨NodeKind.Exp, [2], 0⟩),
  (6, ⟨NodeKind.Exp, [3], 0⟩),
  (7, ⟨NodeKind.MultiAdd, [4, 5, 6], 0⟩),
  (8, ⟨NodeKind.Log, [7], 0⟩)]⟩

/-- The `Log` node of `gSum`. -/
def gSumLog : NodeData := ⟨NodeKind.Log, [7], 0⟩

/-- The same expression as a left-associated chain of binary additions:
`log(Add(Add(Exp(1), Exp(2)), Exp(3)))` — node 7 is `Add [4, 5]`, node 8 is
`Add [7, 6]`, node 9 the `Log` of 8. -/
def gChain : Graph := ⟨[
  (1, ⟨NodeKind.Other, [], 0⟩), (2, ⟨NodeKind.Other, [], 0⟩),
  (3, ⟨NodeKind.Other, [], 0⟩),
  (4, ⟨NodeKind.Exp, [1], 0⟩), (5, ⟨NodeKind.Exp, [2], 0⟩),
  (6, ⟨NodeKind.Exp, [3], 0⟩),
  (7, ⟨NodeKind.Add, [4, 5], 0⟩), (8, ⟨NodeKind.Add, [7, 6], 0⟩),
  (9, ⟨NodeKind.Log, [8], 0⟩)]⟩

/-- The `Log` node of `gChain`. -/
def gChainLog : NodeData := ⟨NodeKind.Log, [8], 0⟩

/-- `log(exp(a) + 5)`: the `MultiAdd` (node 4) has inputs
`[Exp(a), Constant 5]`, so not all inputs are `Exp`. -/
def gMixed : Graph := ⟨[
  (1, ⟨NodeKind.Other, [], 0⟩), (2, ⟨NodeKind.Constant, [], 5⟩),
  (3, ⟨NodeKind.Exp, [1], 0⟩),
  (4, ⟨NodeKind.MultiAdd, [3, 2], 0⟩),
  (5, ⟨NodeKind.Log, [4], 0⟩)]⟩

/-- The `Log` node of `gMixed`. -/
def gMixedLog : NodeData := ⟨NodeKind.Log, [4], 0⟩

/-- `log` of an empty `MultiAdd`: node 2 is a `MultiAdd` with zero inputs,
node 1 the `Log` of 2. -/
def gEmpty : Graph := ⟨[
  (1, ⟨NodeKind.Log, [2], 0⟩), (2, ⟨NodeKind.MultiAdd, [], 0⟩)]⟩

/-- The `Log` node of `gEmpty`. -/
def gEmptyLog : NodeData := ⟨NodeKind.Log, [2], 0⟩

/-- A copy of `gSum` whose only difference is the payload of leaf 1
(a different constant value): same skeleton. -/
def gSumV : Graph := ⟨[
  (1, ⟨NodeKind.Other, [], 42⟩), (2, ⟨NodeKind.Other, [], 0⟩),
  (3, ⟨NodeKind.Other, [], 0⟩),
  (4, ⟨NodeKind.Exp, [1], 0⟩), (5, ⟨NodeKind.Exp, [2], 0⟩),
  (6, ⟨NodeKind.Exp, [3], 0⟩),
  (7, ⟨NodeKind.MultiAdd, [4, 5, 6], 0⟩),
  (8, ⟨NodeKind.Log, [7], 0⟩)]⟩

end BeanMachine

namespace BeanMachine

theorem lookup_mem_of_some {l : List (Nat × NodeData)} {i : Nat} {d : NodeData}
    (h : l.lookup i = some d) : (i, d) ∈ l := by
  induction l with
  | nil => simp [List.lookup] at h
  | cons a tl ih =>
    obtain ⟨k, v⟩ := a
    by_cases hik : i = k
    · subst hik
      simp [List.lookup] at h
      simp [h]
    · have hb : (i == k) = false := beq_eq_false_iff_ne.mpr hik
      simp [List.lookup, hb] at h
      exact List.mem_cons_of_mem _ (ih h)

theorem isExpKind_iff {g : Graph} {i : Nat} :
    isExpKind g i = true ↔ ∃ d, g.find? i = some d ∧ d.kind = NodeKind.Exp := by
  unfold isExpKind
  cases h : g.find? i with
  | none => simp
  | some d => simp [beq_iff_eq]

theorem is_exp_input_iff {g : Graph} {o : NodeData} :
    is_exp_input g o = true ↔
      ∀ i ∈ o.inputs, ∃ d, g.find? i = some d ∧ d.kind = NodeKind.Exp := by
  unfold is_exp_input
  rw [List.all_eq_true]
  constructor <;> intro h i hi
  · exact isExpKind_iff.mp (h i hi)
  · exact isExpKind_iff.mpr (h i hi)

theorem can_be_iff {g : Graph} {n : NodeData} :
    can_be_log_sum_exp g n = true ↔
      ∃ oId o, n.operand? = some oId ∧ g.find? oId = some o ∧
        o.kind = NodeKind.MultiAdd ∧ is_exp_input g o = true := by
  unfold can_be_log_sum_exp
  cases ho : n.operand? with
  | none => simp
  | some oId =>
    cases hf : g.find? oId with
    | none => simp [hf]
    | some o => simp [hf, beq_iff_eq]

end BeanMachine

namespace BeanMachine

theorem expOperand?_eq_some {g : Graph} {c a : Nat} (h : expOperand? g c = some a) :
    ∃ e, g.find? c = some e ∧ e.kind = NodeKind.Exp ∧ e.operand? = some a := by
  unfold expOperand? at h
  cases hf : g.find? c with
  | none => rw [hf] at h; simp at h
  | some e =>
    rw [hf] at h
    by_cases hk : e.kind = NodeKind.Exp
    · simp [hk] at h
      exact ⟨e, rfl, hk, h⟩
    · have hb : (e.kind == NodeKind.Exp) = false := beq_eq_false_iff_ne.mpr hk
      simp [hb] at h

theorem extractOperands_cons {g : Graph} {c : Nat} {rest : List Nat} {out : List Nat} :
    extractOperands g (c :: rest) = some out ↔
      ∃ a acc, expOperand? g c = some a ∧ extractOperands g rest = some acc ∧
        out = a :: acc := by
  cases h1 : expOperand? g c with
  | none => simp [extractOperands, h1]
  | some a =>
    cases h2 : extractOperands g rest with
    | none => simp [extractOperands, h1, h2]
    | some acc => simp [extractOperands, h1, h2, eq_comm]

theorem extractOperands_length {g : Graph} :
    ∀ {l acc : List Nat}, extractOperands g l = some acc → acc.length = l.length := by
  intro l
  induction l with
  | nil => intro acc h; simp [extractOperands] at h; simp [← h]
  | cons c rest ih =>
    intro out h
    obtain ⟨a, acc, _, hrest, rfl⟩ := extractOperands_cons.mp h
    simp [ih hrest]

theorem extractOperands_isSome {g : Graph} (hwf : ExpWF g) :
    ∀ {l : List Nat}, (∀ i ∈ l, isExpKind g i = true) →
      (extractOperands g l).isSome := by
  intro l
  induction l with
  | nil => intro _; simp [extractOperands]
  | cons c rest ih =>
    intro h
    obtain ⟨d, hd, hk⟩ := isExpKind_iff.mp (h c (List.mem_cons_self c rest))
    obtain ⟨a, ha⟩ := Option.isSome_iff_exists.mp (hwf c d hd hk)
    obtain ⟨acc, hacc⟩ :=
      Option.isSome_iff_exists.mp (ih (fun i hi => h i (List.mem_cons_of_mem _ hi)))
    simp [extractOperands, expOperand?, hd, hk, ha, hacc]

theorem extractOperands_get {g : Graph} :
    ∀ {l acc : List Nat}, extractOperands g l = some acc →
      ∀ k cId, l.get? k = some cId →
        ∃ e, g.find? cId = some e ∧ e.kind = NodeKind.Exp ∧
          acc.get? k = e.operand? := by
  intro l
  induction l with
  | nil => intro acc _ k cId hg; simp at hg
  | cons c rest ih =>
    intro out h k cId hg
    obtain ⟨a, acc, ha, hrest, rfl⟩ := extractOperands_cons.mp h
    cases k with
    | zero =>
      simp at hg
      subst hg
      obtain ⟨e, he, hk, hop⟩ := expOperand?_eq_some ha
      exact ⟨e, he, hk, by simp [hop]⟩
    | succ k => exact ih hrest k cId (by simpa using hg)

theorem le_foldr_max {l : List Nat} {i : Nat} (h : i ∈ l) : i ≤ l.foldr max 0 := by
  induction l with
  | nil => cases h
  | cons a tl ih =>
    rcases List.mem_cons.mp h with rfl | h'
    · exact le_max_left _ _
    · exact le_trans (ih h') (le_max_right _ _)

theorem key_lt_freshId {g : Graph} {i : Nat} {d : NodeData}
    (h : (i, d) ∈ g.nodes) : i < freshId g := by
  unfold freshId
  have hi : i ∈ g.nodes.map Prod.fst := List.mem_map.mpr ⟨(i, d), h, rfl⟩
  have := le_foldr_max hi
  omega

theorem find?_freshId {g : Graph} : g.find? (freshId g) = none := by
  cases h : g.find? (freshId g) with
  | none => rfl
  | some d =>
    have hmem := lookup_mem_of_some h
    have := key_lt_freshId hmem
    omega

theorem add_logsumexp_find_new {g : Graph} {acc : List Nat} :
    (add_logsumexp g acc).1.find? (add_logsumexp g acc).2 =
      some ⟨NodeKind.LogSumExp, acc, 0⟩ := by
  simp [add_logsumexp, Graph.find?, List.lookup]

theorem add_logsumexp_find_old {g : Graph} {acc : List Nat} {i : Nat}
    (h : i ≠ (add_logsumexp g acc).2) :
    (add_logsumexp g acc).1.find? i = g.find? i := by
  have hb : (i == freshId g) = false := beq_eq_false_iff_ne.mpr h
  simp [add_logsumexp, Graph.find?, List.lookup, hb]

theorem get_replacement_eq {g : Graph} {t : LatticeTyper} {n : NodeData}
    {oId : Nat} {o : NodeData} {acc : List Nat}
    (hk : n.kind = NodeKind.Log)
    (hcan : can_be_log_sum_exp g n = true)
    (ho : n.operand? = some oId) (hf : g.find? oId = some o)
    (hacc : extractOperands g o.inputs = some acc) :
    get_replacement g t n = some (add_logsumexp g acc) := by
  unfold get_replacement
  simp [hk, hcan, ho, hf, hacc]

end BeanMachine

namespace BeanMachine

theorem is_exp_input_forall {g : Graph} {o : NodeData}
    (h : is_exp_input g o = true) : ∀ i ∈ o.inputs, isExpKind g i = true := by
  unfold is_exp_input at h
  exact List.all_eq_true.mp h

theorem ExpWF_of_expWFb {g : Graph} (h : expWFb g = true) : ExpWF g := by
  intro i d hfind hkind
  have hmem := lookup_mem_of_some hfind
  have hp := List.all_eq_true.mp h (i, d) hmem
  simp [hkind] at hp
  exact hp

theorem get_replacement_none_of_not_needs_fixing {g : Graph} {t : LatticeTyper}
    {n : NodeData} (h : needs_fixing g t n = false) :
    get_replacement g t n = none := by
  unfold needs_fixing at h
  unfold get_replacement
  by_cases hk : n.kind = NodeKind.Log
  · have hcan : can_be_log_sum_exp g n = false := by simpa [hk] using h
    simp [hk, hcan]
  · simp [hk]

theorem get_replacement_some_inv {g : Graph} {t : LatticeTyper} {n : NodeData}
    {p : Graph × Nat} (h : get_replacement g t n = some p) :
    ∃ acc, p = add_logsumexp g acc ∧
      ∃ oId o, n.operand? = some oId ∧ g.find? oId = some o ∧
        extractOperands g o.inputs = some acc ∧
        n.kind = NodeKind.Log ∧ can_be_log_sum_exp g n = true := by
  unfold get_replacement at h
  split at h
  · exact absurd h (by simp)
  next hk1 =>
  split at h
  · exact absurd h (by simp)
  next hcan1 =>
  split at h
  · exact absurd h (by simp)
  next oId ho =>
  split at h
  · exact absurd h (by simp)
  next o hf =>
  split at h
  · exact absurd h (by simp)
  next acc hacc =>
  have hk : n.kind = NodeKind.Log := by simpa using hk1
  have hcan : can_be_log_sum_exp g n = true := by simpa using hcan1
  exact ⟨acc, (Option.some_inj.mp h).symm, oId, o, ho, hf, hacc, hk, hcan⟩

end BeanMachine

namespace BeanMachine

/-- Claim C1: `_needs_fixing(n)` returns true if and only if `n` is a Log-kind
node, its operand is a MultiAdd-kind node, and every input of that MultiAdd
node is an Exp-kind node. -/
theorem needs_fixing_characterization (g : Graph) (t : LatticeTyper) (n : NodeData) :
    needs_fixing g t n = true ↔
      n.kind = NodeKind.Log ∧
      ∃ oId o, n.operand? = some oId ∧ g.find? oId = some o ∧
        o.kind = NodeKind.MultiAdd ∧
        ∀ i ∈ o.inputs, ∃ d, g.find? i = some d ∧ d.kind = NodeKind.Exp := by
  unfold needs_fixing
  rw [Bool.and_eq_true, beq_iff_eq, can_be_iff]
  constructor
  · rintro ⟨hk, oId, o, h1, h2, h3, h4⟩
    exact ⟨hk, oId, o, h1, h2, h3, is_exp_input_iff.mp h4⟩
  · rintro ⟨hk, oId, o, h1, h2, h3, h4⟩
    exact ⟨hk, oId, o, h1, h2, h3, is_exp_input_iff.mpr h4⟩

/-- Claim C2: on a node satisfying `_needs_fixing` (a Log of a MultiAdd of k Exp
nodes), `_get_replacement` returns a LogSumExp node whose input list has
exactly k elements, the i-th being the operand of the i-th Exp child in the
MultiAdd's input order. -/
theorem get_replacement_structure (g : Graph) (t : LatticeTyper) (n : NodeData)
    (oId : Nat) (o : NodeData)
    (hwf : ExpWF g)
    (hneeds : needs_fixing g t n = true)
    (ho : n.operand? = some oId)
    (hf : g.find? oId = some o) :
    ∃ g2 r d, get_replacement g t n = some (g2, r) ∧
      g2.find? r = some d ∧
      d.kind = NodeKind.LogSumExp ∧
      d.inputs.length = o.inputs.length ∧
      ∀ k cId, o.inputs.get? k = some cId →
        ∃ e, g.find? cId = some e ∧ e.kind = NodeKind.Exp ∧
          d.inputs.get? k = e.operand? := by
  unfold needs_fixing at hneeds
  rw [Bool.and_eq_true, beq_iff_eq] at hneeds
  obtain ⟨hk, hcan⟩ := hneeds
  obtain ⟨oId2, o2, ho2, hf2, hkind2, hexp2⟩ := can_be_iff.mp hcan
  rw [ho] at ho2
  obtain rfl : oId = oId2 := Option.some_inj.mp ho2
  rw [hf] at hf2
  obtain rfl : o = o2 := Option.some_inj.mp hf2
  obtain ⟨acc, hacc⟩ := Option.isSome_iff_exists.mp
    (extractOperands_isSome hwf (is_exp_input_forall hexp2))
  refine ⟨(add_logsumexp g acc).1, (add_logsumexp g acc).2,
    ⟨NodeKind.LogSumExp, acc, 0⟩, ?_, add_logsumexp_find_new, rfl, ?_, ?_⟩
  · rw [get_replacement_eq hk hcan ho hf hacc]
  · exact extractOperands_length hacc
  · exact extractOperands_get hacc

/-- Witness for C2: on `log(exp(1) + exp(2) + exp(3))` the replacement is the
LogSumExp node over `[1, 2, 3]` in that exact order. -/
theorem get_replacement_structure_witness :
    (needs_fixing gSum typer0 gSumLog = true) ∧
    (∃ g2 r d, get_replacement gSum typer0 gSumLog = some (g2, r) ∧
      g2.find? r = some d ∧
      d.kind = NodeKind.LogSumExp ∧
      d.inputs.length = (⟨NodeKind.MultiAdd, [4, 5, 6], 0⟩ : NodeData).inputs.length ∧
      ∀ k cId, (⟨NodeKind.MultiAdd, [4, 5, 6], 0⟩ : NodeData).inputs.get? k = some cId →
        ∃ e, gSum.find? cId = some e ∧ e.kind = NodeKind.Exp ∧
          d.inputs.get? k = e.operand?) ∧
    get_replacement gSum typer0 gSumLog =
      some (⟨(9, ⟨NodeKind.LogSumExp, [1, 2, 3], 0⟩) :: gSum.nodes⟩, 9) :=
  ⟨by decide,
   get_replacement_structure gSum typer0 gSumLog 7 ⟨NodeKind.MultiAdd, [4, 5, 6], 0⟩
     (ExpWF_of_expWFb (by decide)) (by decide) (by decide) (by decide),
   by decide⟩

/-- Claim C3: `_get_replacement` returns a node exactly when `_needs_fixing`
holds; when `_needs_fixing` is false it fails an assertion (modelled as
`none`) rather than returning a node. -/
theorem replacement_iff_needs_fixing (g : Graph) (t : LatticeTyper) (n : NodeData)
    (hwf : ExpWF g) :
    needs_fixing g t n = true ↔ (get_replacement g t n).isSome := by
  constructor
  · intro h
    have h2 := h
    unfold needs_fixing at h2
    rw [Bool.and_eq_true, beq_iff_eq] at h2
    obtain ⟨hk, hcan⟩ := h2
    obtain ⟨oId, o, ho, hf, hkind, hexp⟩ := can_be_iff.mp hcan
    obtain ⟨acc, hacc⟩ := Option.isSome_iff_exists.mp
      (extractOperands_isSome hwf (is_exp_input_forall hexp))
    rw [get_replacement_eq hk hcan ho hf hacc]
    rfl
  · intro h
    by_contra hn
    rw [Bool.not_eq_true] at hn
    rw [get_replacement_none_of_not_needs_fixing hn] at h
    simp at h

/-- Witness for C3: instantiated on `log(exp(1) + exp(2) + exp(3))`. -/
theorem replacement_iff_needs_fixing_witness :
    needs_fixing gSum typer0 gSumLog = true ↔
      (get_replacement gSum typer0 gSumLog).isSome :=
  replacement_iff_needs_fixing gSum typer0 gSumLog (ExpWF_of_expWFb (by decide))

end BeanMachine

namespace BeanMachine

/-- Claim C4: the node produced by `_get_replacement` is a LogSumExp-kind node,
not a Log-kind node, so it never itself satisfies `_needs_fixing`: a fixed
point reached once is stable and a second run performs zero replacements. -/
theorem replacement_is_stable (g : Graph) (t : LatticeTyper) (n : NodeData)
    (g2 : Graph) (r : Nat)
    (hneeds : needs_fixing g t n = true)
    (hrep : get_replacement g t n = some (g2, r)) :
    ∃ d, g2.find? r = some d ∧ d.kind = NodeKind.LogSumExp ∧
      needs_fixing g2 t d = false := by
  obtain ⟨acc, hp, -⟩ := get_replacement_some_inv hrep
  have h1 : g2 = (add_logsumexp g acc).1 := congrArg Prod.fst hp
  have h2 : r = (add_logsumexp g acc).2 := congrArg Prod.snd hp
  refine ⟨⟨NodeKind.LogSumExp, acc, 0⟩, ?_, rfl, ?_⟩
  · rw [h1, h2]; exact add_logsumexp_find_new
  · unfold needs_fixing
    simp

/-- Witness for C4: instantiated on `log(exp(1) + exp(2) + exp(3))`. -/
theorem replacement_is_stable_witness :
    ∃ d, (⟨(9, ⟨NodeKind.LogSumExp, [1, 2, 3], 0⟩) :: gSum.nodes⟩ : Graph).find? 9 =
        some d ∧ d.kind = NodeKind.LogSumExp ∧
      needs_fixing (⟨(9, ⟨NodeKind.LogSumExp, [1, 2, 3], 0⟩) :: gSum.nodes⟩ : Graph)
        typer0 d = false :=
  replacement_is_stable gSum typer0 gSumLog
    ⟨(9, ⟨NodeKind.LogSumExp, [1, 2, 3], 0⟩) :: gSum.nodes⟩ 9 (by decide) (by decide)

/-- Claim C5: the rewrite preserves sharing — the replacement is a fresh node (it
did not exist in the old graph), every pre-existing node's data is left
untouched, the replacement's i-th input is the identical operand reference
held by the i-th Exp child, and each such operand gains the new LogSumExp
node as a consumer (it occurs among the new node's inputs). -/
theorem rewrite_preserves_sharing (g : Graph) (t : LatticeTyper) (n : NodeData)
    (oId : Nat) (o : NodeData) (g2 : Graph) (r : Nat)
    (hneeds : needs_fixing g t n = true)
    (ho : n.operand? = some oId) (hf : g.find? oId = some o)
    (hrep : get_replacement g t n = some (g2, r)) :
    g.find? r = none ∧
    (∀ i, i ≠ r → g2.find? i = g.find? i) ∧
    ∃ d, g2.find? r = some d ∧ d.kind = NodeKind.LogSumExp ∧
      (∀ k cId, o.inputs.get? k = some cId →
        ∃ e, g.find? cId = some e ∧ e.kind = NodeKind.Exp ∧
          d.inputs.get? k = e.operand?) ∧
      (∀ k cId e a, o.inputs.get? k = some cId → g.find? cId = some e →
        e.operand? = some a → a ∈ d.inputs) := by
  obtain ⟨acc, hp, oId2, o2, ho2, hf2, hacc, -, -⟩ := get_replacement_some_inv hrep
  rw [ho] at ho2
  obtain rfl : oId = oId2 := Option.some_inj.mp ho2
  rw [hf] at hf2
  obtain rfl : o = o2 := Option.some_inj.mp hf2
  have h1 : g2 = (add_logsumexp g acc).1 := congrArg Prod.fst hp
  have h2 : r = (add_logsumexp g acc).2 := congrArg Prod.snd hp
  have hfresh : r = freshId g := h2
  refine ⟨?_, ?_, ⟨NodeKind.LogSumExp, acc, 0⟩, ?_, rfl, ?_, ?_⟩
  · rw [hfresh]; exact find?_freshId
  · intro i hi
    rw [h1]
    exact add_logsumexp_find_old (by rw [← h2]; exact hi)
  · rw [h1, h2]; exact add_logsumexp_find_new
  · exact extractOperands_get hacc
  · intro k cId e a hget hfind hop
    obtain ⟨e2, hfind2, -, hacck⟩ := extractOperands_get hacc k cId hget
    rw [hfind] at hfind2
    obtain rfl : e = e2 := Option.some_inj.mp hfind2
    have : acc.get? k = some a := by rw [hacck, hop]
    exact List.get?_mem this

/-- Witness for C5: on `log(exp(1) + exp(2) + exp(3))`, leaf 1 (an operand of an
Exp child) becomes an input of the fresh node 9 and all old entries remain. -/
theorem rewrite_preserves_sharing_witness :
    gSum.find? 9 = none ∧
    (∀ i, i ≠ 9 →
      (⟨(9, ⟨NodeKind.LogSumExp, [1, 2, 3], 0⟩) :: gSum.nodes⟩ : Graph).find? i =
        gSum.find? i) ∧
    ∃ d, (⟨(9, ⟨NodeKind.LogSumExp, [1, 2, 3], 0⟩) :: gSum.nodes⟩ : Graph).find? 9 =
        some d ∧ d.kind = NodeKind.LogSumExp ∧
      (∀ k cId, (⟨NodeKind.MultiAdd, [4, 5, 6], 0⟩ : NodeData).inputs.get? k = some cId →
        ∃ e, gSum.find? cId = some e ∧ e.kind = NodeKind.Exp ∧
          d.inputs.get? k = e.operand?) ∧
      (∀ k cId e a, (⟨NodeKind.MultiAdd, [4, 5, 6], 0⟩ : NodeData).inputs.get? k = some cId →
        gSum.find? cId = some e → e.operand? = some a → a ∈ d.inputs) :=
  rewrite_preserves_sharing gSum typer0 gSumLog 7 ⟨NodeKind.MultiAdd, [4, 5, 6], 0⟩
    ⟨(9, ⟨NodeKind.LogSumExp, [1, 2, 3], 0⟩) :: gSum.nodes⟩ 9
    (by decide) (by decide) (by decide) (by decide)

/-- Claim C6: a Log node whose operand is a binary `Add` chain (not a single
`MultiAdd`) is not matched: `_needs_fixing` is false and no replacement is
produced, so the fixer alone leaves the chain form unrewritten. -/
theorem chain_add_not_fixed (g : Graph) (t : LatticeTyper) (n : NodeData)
    (oId : Nat) (o : NodeData)
    (ho : n.operand? = some oId) (hf : g.find? oId = some o)
    (hkind : o.kind = NodeKind.Add) :
    needs_fixing g t n = false ∧ get_replacement g t n = none := by
  have hcan : can_be_log_sum_exp g n = false := by
    unfold can_be_log_sum_exp
    simp [ho, hf, hkind]
  have hneeds : needs_fixing g t n = false := by
    unfold needs_fixing
    simp [hcan]
  exact ⟨hneeds, get_replacement_none_of_not_needs_fixing hneeds⟩

/-- Witness for C6: `log(Add(Add(Exp(1), Exp(2)), Exp(3)))` is left alone. -/
theorem chain_add_not_fixed_witness :
    needs_fixing gChain typer0 gChainLog = false ∧
    get_replacement gChain typer0 gChainLog = none :=
  chain_add_not_fixed gChain typer0 gChainLog 8 ⟨NodeKind.Add, [7, 6], 0⟩
    (by decide) (by decide) (by decide)

/-- Claim C7: when the MultiAdd operand has at least one non-Exp input,
`_needs_fixing` is false and no replacement is produced; `_needs_fixing` is
a pure predicate over the graph (its embedding returns only a boolean and
takes the graph unchanged), so the graph is untouched on such a node. -/
theorem non_exp_input_not_fixed (g : Graph) (t : LatticeTyper) (n : NodeData)
    (oId : Nat) (o : NodeData) (cId : Nat)
    (ho : n.operand? = some oId) (hf : g.find? oId = some o)
    (hmem : cId ∈ o.inputs) (hne : isExpKind g cId = false) :
    needs_fixing g t n = false ∧ get_replacement g t n = none := by
  have hexp : is_exp_input g o = false := by
    cases hall : is_exp_input g o with
    | false => rfl
    | true =>
      have := is_exp_input_forall hall cId hmem
      rw [hne] at this
      exact absurd this (by simp)
  have hcan : can_be_log_sum_exp g n = false := by
    unfold can_be_log_sum_exp
    simp [ho, hf, hexp]
  have hneeds : needs_fixing g t n = false := by
    unfold needs_fixing
    simp [hcan]
  exact ⟨hneeds, get_replacement_none_of_not_needs_fixing hneeds⟩

/-- Witness for C7: `log(exp(1) + 5)` — the MultiAdd input 2 is a Constant. -/
theorem non_exp_input_not_fixed_witness :
    needs_fixing gMixed typer0 gMixedLog = false ∧
    get_replacement gMixed typer0 gMixedLog = none :=
  non_exp_input_not_fixed gMixed typer0 gMixedLog 4 ⟨NodeKind.MultiAdd, [3, 2], 0⟩ 2
    (by decide) (by decide) (by decide) (by decide)

/-- Claim C9: for a Log of a MultiAdd with an empty input list, `_needs_fixing`
is (vacuously) true and `_get_replacement` returns a LogSumExp node with
zero inputs. -/
theorem empty_multiadd_fixed :
    needs_fixing gEmpty typer0 gEmptyLog = true ∧
    ∃ g2 r d, get_replacement gEmpty typer0 gEmptyLog = some (g2, r) ∧
      g2.find? r = some d ∧ d.kind = NodeKind.LogSumExp ∧ d.inputs = [] := by
  refine ⟨by decide, ⟨(3, ⟨NodeKind.LogSumExp, [], 0⟩) :: gEmpty.nodes⟩, 3,
    ⟨NodeKind.LogSumExp, [], 0⟩, by decide, by decide, rfl, rfl⟩

end BeanMachine

namespace BeanMachine

theorem lookup_map_skel :
    ∀ {l l' : List (Nat × NodeData)},
      l.map (fun p => (p.1, p.2.skeleton)) = l'.map (fun p => (p.1, p.2.skeleton)) →
      ∀ i, (l.lookup i).map NodeData.skeleton = (l'.lookup i).map NodeData.skeleton := by
  intro l
  induction l with
  | nil =>
    intro l' h i
    have hh : l' = [] := List.map_eq_nil_iff.mp h.symm
    subst hh
    rfl
  | cons a tl ih =>
    intro l' h i
    cases l' with
    | nil => simp at h
    | cons b tl' =>
      obtain ⟨k, v⟩ := a
      obtain ⟨k', v'⟩ := b
      simp only [List.map_cons, List.cons.injEq, Prod.mk.injEq] at h
      obtain ⟨⟨hk, hv⟩, htl⟩ := h
      subst hk
      by_cases hik : i = k
      · subst hik
        simp [List.lookup, hv]
      · have hb : (i == k) = false := beq_eq_false_iff_ne.mpr hik
        simp only [List.lookup, hb]
        exact ih htl i

theorem find?_map_skeleton {g g' : Graph} (h : g.skeleton = g'.skeleton) (i : Nat) :
    (g.find? i).map NodeData.skeleton = (g'.find? i).map NodeData.skeleton :=
  lookup_map_skel h i

theorem isExpKind_congr {g g' : Graph} (h : g.skeleton = g'.skeleton) (i : Nat) :
    isExpKind g i = isExpKind g' i := by
  have hmf := find?_map_skeleton h i
  unfold isExpKind
  cases h1 : g.find? i with
  | none =>
    rw [h1] at hmf
    cases h2 : g'.find? i with
    | none => rfl
    | some d' => rw [h2] at hmf; simp at hmf
  | some d =>
    rw [h1] at hmf
    cases h2 : g'.find? i with
    | none => rw [h2] at hmf; simp at hmf
    | some d' =>
      rw [h2] at hmf
      simp only [Option.map_some'] at hmf
      have hk : d.kind = d'.kind :=
        congrArg Prod.fst (Option.some_inj.mp hmf)
      simp [hk]

theorem operand?_congr {n n' : NodeData} (h : n.skeleton = n'.skeleton) :
    n.operand? = n'.operand? := by
  unfold NodeData.operand?
  rw [show n.inputs = n'.inputs from congrArg Prod.snd h]

theorem expOperand?_congr {g g' : Graph} (h : g.skeleton = g'.skeleton) (i : Nat) :
    expOperand? g i = expOperand? g' i := by
  have hmf := find?_map_skeleton h i
  unfold expOperand?
  cases h1 : g.find? i with
  | none =>
    rw [h1] at hmf
    cases h2 : g'.find? i with
    | none => rfl
    | some d' => rw [h2] at hmf; simp at hmf
  | some d =>
    rw [h1] at hmf
    cases h2 : g'.find? i with
    | none => rw [h2] at hmf; simp at hmf
    | some d' =>
      rw [h2] at hmf
      simp only [Option.map_some'] at hmf
      have hsk := Option.some_inj.mp hmf
      have hk : d.kind = d'.kind := congrArg Prod.fst hsk
      simp [hk, operand?_congr hsk]

theorem extractOperands_congr {g g' : Graph} (h : g.skeleton = g'.skeleton) :
    ∀ l : List Nat, extractOperands g l = extractOperands g' l := by
  intro l
  induction l with
  | nil => rfl
  | cons c rest ih =>
    unfold extractOperands
    rw [expOperand?_congr h c, ih]

theorem is_exp_input_congr {g g' : Graph} {o o' : NodeData}
    (h : g.skeleton = g'.skeleton) (ho : o.skeleton = o'.skeleton) :
    is_exp_input g o = is_exp_input g' o' := by
  unfold is_exp_input
  rw [show o.inputs = o'.inputs from congrArg Prod.snd ho,
    funext (isExpKind_congr h)]

theorem find?_skel_some {g g' : Graph} {i : Nat} {d : NodeData}
    (h : g.skeleton = g'.skeleton) (hf : g.find? i = some d) :
    ∃ d', g'.find? i = some d' ∧ d.skeleton = d'.skeleton := by
  have hmf := find?_map_skeleton h i
  rw [hf] at hmf
  cases h2 : g'.find? i with
  | none => rw [h2] at hmf; simp at hmf
  | some d' =>
    rw [h2] at hmf
    simp only [Option.map_some'] at hmf
    exact ⟨d', rfl, Option.some_inj.mp hmf⟩

theorem can_be_le {g g' : Graph} {n n' : NodeData}
    (hg : g.skeleton = g'.skeleton) (hn : n.skeleton = n'.skeleton)
    (h : can_be_log_sum_exp g n = true) : can_be_log_sum_exp g' n' = true := by
  obtain ⟨oId, o, ho, hf, hk, he⟩ := can_be_iff.mp h
  obtain ⟨o', hf', hsk⟩ := find?_skel_some hg hf
  refine can_be_iff.mpr ⟨oId, o', ?_, hf', ?_, ?_⟩
  · rw [← operand?_congr hn]; exact ho
  · have hke : o.kind = o'.kind := congrArg Prod.fst hsk
    rw [← hke]; exact hk
  · rw [← is_exp_input_congr hg hsk]; exact he

theorem can_be_congr {g g' : Graph} {n n' : NodeData}
    (hg : g.skeleton = g'.skeleton) (hn : n.skeleton = n'.skeleton) :
    can_be_log_sum_exp g n = can_be_log_sum_exp g' n' := by
  cases hb : can_be_log_sum_exp g n with
  | true => exact (can_be_le hg hn hb).symm
  | false =>
    cases hb2 : can_be_log_sum_exp g' n' with
    | false => rfl
    | true =>
      rw [can_be_le hg.symm hn.symm hb2] at hb
      exact hb.symm

theorem needs_fixing_congr {g g' : Graph} {t t' : LatticeTyper} {n n' : NodeData}
    (hg : g.skeleton = g'.skeleton) (hn : n.skeleton = n'.skeleton) :
    needs_fixing g t n = needs_fixing g' t' n' := by
  unfold needs_fixing
  rw [show n.kind = n'.kind from congrArg Prod.fst hn, can_be_congr hg hn]

theorem freshId_congr {g g' : Graph} (h : g.skeleton = g'.skeleton) :
    freshId g = freshId g' := by
  unfold freshId
  have h1 : g.nodes.map Prod.fst = g.skeleton.map Prod.fst := by
    simp [Graph.skeleton]
  have h2 : g'.nodes.map Prod.fst = g'.skeleton.map Prod.fst := by
    simp [Graph.skeleton]
  rw [h1, h2, h]

theorem add_logsumexp_congr {g g' : Graph} (h : g.skeleton = g'.skeleton)
    (acc : List Nat) :
    ((add_logsumexp g acc).1.skeleton, (add_logsumexp g acc).2) =
      ((add_logsumexp g' acc).1.skeleton, (add_logsumexp g' acc).2) := by
  simp only [add_logsumexp, Graph.skeleton, List.map_cons]
  rw [freshId_congr h]
  rw [show g.nodes.map (fun p => (p.1, p.2.skeleton)) = g.skeleton from rfl,
    show g'.nodes.map (fun p => (p.1, p.2.skeleton)) = g'.skeleton from rfl, h]

end BeanMachine

namespace BeanMachine

theorem get_replacement_none_of_extract_none {g : Graph} {t : LatticeTyper}
    {n : NodeData} {oId : Nat} {o : NodeData}
    (hk : n.kind = NodeKind.Log)
    (hcan : can_be_log_sum_exp g n = true)
    (ho : n.operand? = some oId) (hf : g.find? oId = some o)
    (hacc : extractOperands g o.inputs = none) :
    get_replacement g t n = none := by
  unfold get_replacement
  simp [hk, hcan, ho, hf, hacc]

/-- Claim C8: the fixer's decisions are purely structural — for graphs and nodes
with identical skeletons (kinds and input-order structure; constant payloads
free) and for any two typer states, `_needs_fixing` returns the same boolean
and `_get_replacement` produces structurally identical results. -/
theorem structural_purity (g g' : Graph) (t t' : LatticeTyper) (n n' : NodeData)
    (hg : g.skeleton = g'.skeleton) (hn : n.skeleton = n'.skeleton) :
    needs_fixing g t n = needs_fixing g' t' n' ∧
    (get_replacement g t n).map (fun p => (p.1.skeleton, p.2)) =
      (get_replacement g' t' n').map (fun p => (p.1.skeleton, p.2)) := by
  refine ⟨needs_fixing_congr hg hn, ?_⟩
  by_cases hneed : needs_fixing g t n = true
  · have h2 := hneed
    unfold needs_fixing at h2
    rw [Bool.and_eq_true, beq_iff_eq] at h2
    obtain ⟨hk, hcan⟩ := h2
    have hkk : n.kind = n'.kind := congrArg Prod.fst hn
    have hk' : n'.kind = NodeKind.Log := by rw [← hkk]; exact hk
    have hcan' : can_be_log_sum_exp g' n' = true := can_be_le hg hn hcan
    obtain ⟨oId, o, ho, hf, -, -⟩ := can_be_iff.mp hcan
    obtain ⟨o', hf', hsk⟩ := find?_skel_some hg hf
    have ho' : n'.operand? = some oId := by rw [← operand?_congr hn]; exact ho
    have hinputs : o.inputs = o'.inputs := congrArg Prod.snd hsk
    cases hacc : extractOperands g o.inputs with
    | none =>
      have hacc' : extractOperands g' o'.inputs = none := by
        rw [← hinputs, ← extractOperands_congr hg]; exact hacc
      rw [get_replacement_none_of_extract_none hk hcan ho hf hacc,
        get_replacement_none_of_extract_none hk' hcan' ho' hf' hacc']
    | some acc =>
      have hacc' : extractOperands g' o'.inputs = some acc := by
        rw [← hinputs, ← extractOperands_congr hg]; exact hacc
      rw [get_replacement_eq hk hcan ho hf hacc,
        get_replacement_eq hk' hcan' ho' hf' hacc']
      simp only [Option.map_some']
      exact congrArg some (add_logsumexp_congr hg acc)
  · have hfalse : needs_fixing g t n = false := by simpa using hneed
    have hfalse' : needs_fixing g' t' n' = false := by
      rw [← needs_fixing_congr hg hn]; exact hfalse
    rw [get_replacement_none_of_not_needs_fixing hfalse,
      get_replacement_none_of_not_needs_fixing hfalse']

/-- Witness for C8: `gSum` and `gSumV` differ only in a constant payload, and
the typers differ; decisions and replacement structure coincide. -/
theorem structural_purity_witness :
    needs_fixing gSum typer0 gSumLog = needs_fixing gSumV typer1 gSumLog ∧
    (get_replacement gSum typer0 gSumLog).map (fun p => (p.1.skeleton, p.2)) =
      (get_replacement gSumV typer1 gSumLog).map (fun p => (p.1.skeleton, p.2)) :=
  structural_purity gSum gSumV typer0 typer1 gSumLog gSumLog (by decide) rfl

end BeanMachine

namespace BeanMachine

theorem get_proposers_cons_some {s : SingleSiteInference} {nd q : Nat}
    {rest : List Nat} (hl : s.proposers.lookup nd = some q) :
    get_proposers s (nd :: rest) =
      ((get_proposers s rest).1, q :: (get_proposers s rest).2) := by
  conv_lhs => unfold get_proposers
  simp [hl]

theorem get_proposers_cons_none {s : SingleSiteInference} {nd : Nat}
    {rest : List Nat} (hl : s.proposers.lookup nd = none) :
    get_proposers s (nd :: rest) =
      ((get_proposers ⟨(nd, s.next) :: s.proposers, s.next + 1⟩ rest).1,
        s.next :: (get_proposers ⟨(nd, s.next) :: s.proposers, s.next + 1⟩ rest).2) := by
  conv_lhs => unfold get_proposers
  simp [hl]

theorem get_proposers_lookup_mono :
    ∀ (targets : List Nat) (s : SingleSiteInference) (node p : Nat),
      s.proposers.lookup node = some p →
      (get_proposers s targets).1.proposers.lookup node = some p := by
  intro targets
  induction targets with
  | nil => intro s node p h; exact h
  | cons nd rest ih =>
    intro s node p h
    cases hl : s.proposers.lookup nd with
    | some q =>
      rw [get_proposers_cons_some hl]
      exact ih s node p h
    | none =>
      rw [get_proposers_cons_none hl]
      apply ih
      have hne : node ≠ nd := by
        intro he
        subst he
        rw [h] at hl
        exact Option.noConfusion hl
      have hb : (node == nd) = false := beq_eq_false_iff_ne.mpr hne
      simp [List.lookup, hb, h]

theorem get_proposers_length :
    ∀ (targets : List Nat) (s : SingleSiteInference),
      ((get_proposers s targets).2).length = targets.length := by
  intro targets
  induction targets with
  | nil => intro s; rfl
  | cons nd rest ih =>
    intro s
    cases hl : s.proposers.lookup nd with
    | some q => rw [get_proposers_cons_some hl]; simp [ih]
    | none => rw [get_proposers_cons_none hl]; simp [ih]

theorem get_proposers_mapped :
    ∀ (targets : List Nat) (s : SingleSiteInference) (k node : Nat),
      targets.get? k = some node →
      ∃ q, (get_proposers s targets).2.get? k = some q ∧
        (get_proposers s targets).1.proposers.lookup node = some q := by
  intro targets
  induction targets with
  | nil => intro s k node h; simp at h
  | cons nd rest ih =>
    intro s k node h
    cases k with
    | zero =>
      simp only [List.get?] at h
      obtain rfl : nd = node := Option.some_inj.mp h
      cases hl : s.proposers.lookup nd with
      | some q =>
        rw [get_proposers_cons_some hl]
        exact ⟨q, rfl, get_proposers_lookup_mono rest s nd q hl⟩
      | none =>
        rw [get_proposers_cons_none hl]
        refine ⟨s.next, rfl, get_proposers_lookup_mono rest _ nd s.next ?_⟩
        simp [List.lookup]
    | succ k =>
      simp only [List.get?] at h
      cases hl : s.proposers.lookup nd with
      | some q =>
        rw [get_proposers_cons_some hl]
        exact ih s k node h
      | none =>
        rw [get_proposers_cons_none hl]
        exact ih _ k node h

theorem get_proposers_idem :
    ∀ (targets : List Nat) (s : SingleSiteInference),
      get_proposers (get_proposers s targets).1 targets = get_proposers s targets := by
  intro targets
  induction targets with
  | nil => intro s; rfl
  | cons nd rest ih =>
    intro s
    cases hl : s.proposers.lookup nd with
    | some q =>
      have hmono : (get_proposers s rest).1.proposers.lookup nd = some q :=
        get_proposers_lookup_mono rest s nd q hl
      rw [get_proposers_cons_some hl]
      dsimp only
      rw [get_proposers_cons_some hmono, ih s]
    | none =>
      have hstep : ((⟨(nd, s.next) :: s.proposers, s.next + 1⟩ :
          SingleSiteInference).proposers).lookup nd = some s.next := by
        simp [List.lookup]
      have hmono := get_proposers_lookup_mono rest
        ⟨(nd, s.next) :: s.proposers, s.next + 1⟩ nd s.next hstep
      rw [get_proposers_cons_none hl]
      dsimp only
      rw [get_proposers_cons_some hmono, ih]

end BeanMachine

namespace BeanMachine

/-- Claim C10: `get_proposers` returns exactly one proposer per element of
`target_rvs` and memoizes construction: existing memo entries are never
replaced (so a proposer is created at most once across all calls), each
returned proposer is the memoized instance for its random variable, and a
repeated call with the same random variables returns the same instances and
leaves the state unchanged. -/
theorem get_proposers_memoized (s : SingleSiteInference) (targets : List Nat)
    (node p k nodeK : Nat)
    (hmem : s.proposers.lookup node = some p)
    (hk : targets.get? k = some nodeK) :
    (get_proposers s targets).2.length = targets.length ∧
    (get_proposers s targets).1.proposers.lookup node = some p ∧
    get_proposers (get_proposers s targets).1 targets = get_proposers s targets ∧
    ∃ q, (get_proposers s targets).2.get? k = some q ∧
      (get_proposers s targets).1.proposers.lookup nodeK = some q :=
  ⟨get_proposers_length targets s,
   get_proposers_lookup_mono targets s node p hmem,
   get_proposers_idem targets s,
   get_proposers_mapped targets s k nodeK hk⟩

/-- Witness for C10: state with rv 3 already memoized to proposer 0; calling on
`[3, 7]` keeps 3's proposer, creates one for 7, and is idempotent. -/
theorem get_proposers_memoized_witness :
    (get_proposers ⟨[(3, 0)], 1⟩ [3, 7]).2.length = ([3, 7] : List Nat).length ∧
    (get_proposers ⟨[(3, 0)], 1⟩ [3, 7]).1.proposers.lookup 3 = some 0 ∧
    get_proposers (get_proposers ⟨[(3, 0)], 1⟩ [3, 7]).1 [3, 7] =
      get_proposers ⟨[(3, 0)], 1⟩ [3, 7] ∧
    ∃ q, (get_proposers ⟨[(3, 0)], 1⟩ [3, 7]).2.get? 1 = some q ∧
      (get_proposers ⟨[(3, 0)], 1⟩ [3, 7]).1.proposers.lookup 7 = some q :=
  get_proposers_memoized ⟨[(3, 0)], 1⟩ [3, 7] 3 0 1 7 (by decide) (by decide)

end BeanMachine
